import Mathlib

/-!
Verification development for the analytic-parser repository.

Shallow embedding of the transaction-reconstruction core:
`cleaner.py` (strip_footer, clean_description), `parser.py`
(_parse_head, _to_decimal), `freedom_parser.py` (_parse_head_line,
_parse_page, parse_freedom_pdf), `kaspi_parser.py` (_parse_date,
_parse_amount, _looks_like_header, _looks_like_transaction_row,
parse_kaspi_pdf).

Python strings are modelled as Lean `String`/`List Char`; Python
`Decimal` as a pair (integer mantissa, decimal scale); Python
`datetime` dates as day/month/year triples; code that can raise is
embedded in `Except PyErr`.  `str.strip`, `str.lower`, `\s` are
modelled over ASCII whitespace and the ASCII+Cyrillic alphabet, which
covers all text appearing in this repository.

The repository's `config.py` (imported by the parsers for
FOOTER_MARKERS, NOISE_PATTERNS, TX_HEAD_RE, DATE_START_RE,
KNOWN_OPERATIONS) is not part of the sources; those configuration
values are taken as parameters, and where a concrete shape is needed
it is modelled from the spec (see the individual doc comments).
-/

namespace AnalyticParser

/-- Python exception kinds that the embedded code can raise. -/
inductive PyErr where
  | valueError
  | invalidOperation
  | indexError
deriving DecidableEq, Repr

/-- Calendar date, modelling the date part of a Python `datetime`. -/
structure Date where
  day : Nat
  month : Nat
  year : Nat
deriving DecidableEq, Repr

/-- Exact decimal number, modelling Python `Decimal`:
the represented value is `num / 10 ^ scale`. -/
structure Dec where
  num : Int
  scale : Nat
deriving DecidableEq, Repr

/-- The decimal zero `Decimal("0")`. -/
def Dec.zero : Dec := ⟨0, 0⟩

/-- Model of `abs` on Decimal. -/
def Dec.dabs (d : Dec) : Dec := ⟨|d.num|, d.scale⟩

/-- Model of `-abs(d)` on Decimal. -/
def Dec.negAbs (d : Dec) : Dec := ⟨-|d.num|, d.scale⟩

/-- Lowercasing of one character, modelling `str.lower` on the
ASCII + Cyrillic alphabet used by this repository. -/
def pyLowerChar (c : Char) : Char :=
  if 'A' ≤ c ∧ c ≤ 'Z' then Char.ofNat (c.toNat + 32)
  else if 'А' ≤ c ∧ c ≤ 'Я' then Char.ofNat (c.toNat + 32)
  else if c = 'Ё' then 'ё'
  else c

/-- Uppercasing of one character, modelling `str.upper` on the
ASCII + Cyrillic alphabet used by this repository. -/
def pyUpperChar (c : Char) : Char :=
  if 'a' ≤ c ∧ c ≤ 'z' then Char.ofNat (c.toNat - 32)
  else if 'а' ≤ c ∧ c ≤ 'я' then Char.ofNat (c.toNat - 32)
  else if c = 'ё' then 'Ё'
  else c

/-- Model of `str.lower`. -/
def pyLower (s : String) : String := String.mk (s.toList.map pyLowerChar)

/-- Model of `str.capitalize`: first character uppercased, the rest lowercased. -/
def pyCapitalize (s : String) : String :=
  match s.toList with
  | [] => ""
  | c :: t => String.mk (pyUpperChar c :: t.map pyLowerChar)

/-- Numeric value of a list of decimal digit characters. -/
def digitsVal (l : List Char) : Nat :=
  l.foldl (fun a c => a * 10 + (c.toNat - '0'.toNat)) 0

/-- Parse of a sign-free decimal numeral: digits, optionally followed by
a point and further digits, at least one digit in total.  This is the
shape `Decimal(...)` accepts on the alphabet `[0-9.]` that the callers
in this repository produce. -/
def parseDecCore (sign : Int) (l : List Char) : Option Dec :=
  let ip := l.takeWhile Char.isDigit
  let rest := l.dropWhile Char.isDigit
  match rest with
  | [] => if ip.isEmpty then none else some ⟨sign * (digitsVal ip : Int), 0⟩
  | '.' :: fr =>
    if fr.all Char.isDigit && !(ip.isEmpty && fr.isEmpty) then
      some ⟨sign * (digitsVal (ip ++ fr) : Int), fr.length⟩
    else none
  | _ => none

/-- The Python `Decimal` constructor on the restricted alphabet
`[0-9.+-]` reaching it in this repository: an optional leading sign
followed by a decimal numeral; `none` models `InvalidOperation`. -/
def parseDecimal : List Char → Option Dec
  | '+' :: t => parseDecCore 1 t
  | '-' :: t => parseDecCore (-1) t
  | t => parseDecCore 1 t

/-- Character-level normalization performed by `_to_decimal`
(parser.py lines 83-89 and freedom_parser.py lines 131-145): Unicode
minus to hyphen, spaces removed, comma as thousands separator when a
period is also present and as decimal point otherwise, then
everything outside `[0-9.-]` removed. -/
def toDecimalChars (v : List Char) : List Char :=
  let v1 := (v.map (fun c => if c = '−' then '-' else c)).filter (fun c => c ≠ ' ')
  let v2 :=
    if v1.contains '.' && v1.contains ',' then v1.filter (fun c => c ≠ ',')
    else v1.map (fun c => if c = ',' then '.' else c)
  v2.filter (fun c => c.isDigit || c = '.' || c = '-')

/-- Embedding of `_to_decimal` (parser.py / freedom_parser.py): normalize the
characters, fall back to `"0"` when everything was stripped, then call
`Decimal`, whose failure raises `InvalidOperation`. -/
def to_decimal (v : String) : Except PyErr Dec :=
  let s := toDecimalChars v.toList
  let s := if s.isEmpty then ['0'] else s
  match parseDecimal s with
  | some d => .ok d
  | none => .error .invalidOperation

/-- Character-level normalization performed by `_parse_amount`
(kaspi_parser.py lines 52-60): tenge sign and spaces removed, comma to
period, then everything outside `[0-9.+-]` removed. -/
def kaspiAmountChars (v : List Char) : List Char :=
  let v1 := (v.filter (fun c => c ≠ '₸')).filter (fun c => c ≠ ' ')
  let v2 := v1.map (fun c => if c = ',' then '.' else c)
  v2.filter (fun c => c.isDigit || c = '.' || c = '-' || c = '+')

/-- Embedding of `_parse_amount` (kaspi_parser.py): normalize, fall back to `"0"`,
call `Decimal`. -/
def kaspi_parse_amount (v : String) : Except PyErr Dec :=
  let s := kaspiAmountChars v.toList
  let s := if s.isEmpty then ['0'] else s
  match parseDecimal s with
  | some d => .ok d
  | none => .error .invalidOperation

/-- Gregorian leap-year rule, as used by Python `datetime`. -/
def isLeap (y : Nat) : Bool := y % 4 = 0 && (y % 100 ≠ 0 || y % 400 = 0)

/-- Length of a month, as validated by Python `datetime`. -/
def daysInMonth (m y : Nat) : Nat :=
  if m = 2 then (if isLeap y then 29 else 28)
  else if m = 4 ∨ m = 6 ∨ m = 9 ∨ m = 11 then 30
  else 31

/-- Calendar validation performed by the `datetime` constructor. -/
def mkDate (d m y : Nat) : Option Date :=
  if 1 ≤ m ∧ m ≤ 12 ∧ 1 ≤ d ∧ d ≤ daysInMonth m y then some ⟨d, m, y⟩ else none

/-- Split a character list at every occurrence of `sep`,
modelling Python `str.split(sep)`. -/
def splitOnChar (sep : Char) : List Char → List (List Char)
  | [] => [[]]
  | c :: t =>
    let r := splitOnChar sep t
    if c = sep then [] :: r
    else
      match r with
      | h :: t' => (c :: h) :: t'
      | [] => [[c]]

/-- Model of `datetime.strptime(s, "%d.%m.%Y")`: one- or two-digit day and
month, four-digit year, separated by periods, then calendar
validation; `none` models the `ValueError` raise. -/
def strptimeDMY4 (s : String) : Option Date :=
  match splitOnChar '.' s.toList with
  | [ds, ms, ys] =>
    if ds.all Char.isDigit && ms.all Char.isDigit && ys.all Char.isDigit
        && (ds.length = 1 || ds.length = 2) && (ms.length = 1 || ms.length = 2)
        && ys.length = 4 then
      mkDate (digitsVal ds) (digitsVal ms) (digitsVal ys)
    else none
  | _ => none

/-- Model of `datetime.strptime(s, "%d.%m.%y")`: as `%d.%m.%Y` but with a
two-digit year mapped through Python's 1969 pivot. -/
def strptimeDMY2 (s : String) : Option Date :=
  match splitOnChar '.' s.toList with
  | [ds, ms, ys] =>
    if ds.all Char.isDigit && ms.all Char.isDigit && ys.all Char.isDigit
        && (ds.length = 1 || ds.length = 2) && (ms.length = 1 || ms.length = 2)
        && ys.length = 2 then
      let y2 := digitsVal ys
      mkDate (digitsVal ds) (digitsVal ms) (if y2 ≤ 68 then 2000 + y2 else 1900 + y2)
    else none
  | _ => none

/-- First index of `needle` inside `hay`, modelling Python
`str.find` (`none` models `-1`). -/
def findSub (needle : List Char) : List Char → Option Nat
  | [] => if needle.isEmpty then some 0 else none
  | c :: t =>
    if needle.isPrefixOf (c :: t) then some 0
    else (findSub needle t).map (· + 1)

/-- Model of `hay.find(needle)` on strings. -/
def pyFind (hay needle : String) : Option Nat := findSub needle.toList hay.toList

/-- Python `needle in hay` membership test. -/
def containsSub (hay needle : String) : Bool := (pyFind hay needle).isSome

/-- Whitespace-run collapse, modelling `re.sub(r"\s+", " ", ...)`:
`prevWs` records whether the previous character belonged to a
whitespace run already replaced. -/
def wsCollapseAux : Bool → List Char → List Char
  | _, [] => []
  | prevWs, c :: t =>
    if c.isWhitespace then
      if prevWs then wsCollapseAux true t
      else ' ' :: wsCollapseAux true t
    else c :: wsCollapseAux false t

/-- Model of `re.sub(r"\s+", " ", s)` over the character list of `s`. -/
def wsCollapse (l : List Char) : List Char := wsCollapseAux false l

/-- Removal of trailing whitespace, the right half of `str.strip`. -/
def pyRStrip : List Char → List Char
  | [] => []
  | c :: t =>
    match pyRStrip t with
    | [] => if c.isWhitespace then [] else [c]
    | r => c :: r

/-- Model of `str.strip()`: leading and trailing whitespace removed. -/
def pyStrip (l : List Char) : List Char := pyRStrip (l.dropWhile Char.isWhitespace)

/-- Model of `str.strip()` on strings. -/
def pyStripStr (s : String) : String := String.mk (pyStrip s.toList)

/-- Embedding of `strip_footer` (cleaner.py lines 12-21): the markers are scanned
in list order and the text is truncated at the position of the first
listed marker that occurs in the lowercased text; the marker list
FOOTER_MARKERS lives in the missing `config.py` and is therefore a
parameter here. -/
def strip_footer (markers : List String) (text : String) : String :=
  match markers with
  | [] => text
  | m :: rest =>
    match pyFind (pyLower text) m with
    | some i => String.mk (text.toList.take i)
    | none => strip_footer rest text

/-- Modelled from the spec: `strip_footer` as §4.2 words it —
truncation at the smallest occurrence index across all configured
markers, used only to compare the source behaviour against the
claimed one. -/
def strip_footer_by_spec (markers : List String) (text : String) : String :=
  match (markers.filterMap (fun m => pyFind (pyLower text) m)).min? with
  | some i => String.mk (text.toList.take i)
  | none => text

/-- Noise-pattern removal of `clean_description` (cleaner.py lines
33-34): each configured pattern acts as `re.sub(pattern, "", ·)`; the
pattern list NOISE_PATTERNS lives in the missing `config.py`, so the
patterns are taken as string transformers. -/
def noiseFold (noise : List (String → String)) (t : String) : String :=
  noise.foldl (fun a f => f a) t

/-- Embedding of `clean_description` (cleaner.py lines 24-36): strip the footer,
remove every noise pattern in order, collapse whitespace runs to a
single space and trim. -/
def clean_description (markers : List String) (noise : List (String → String))
    (text : String) : String :=
  let t1 := strip_footer markers text
  let t2 := noiseFold noise t1
  String.mk (pyStrip (wsCollapse t2.toList))

/-- Transaction record, the dict each extractor emits. -/
structure Tx where
  date : Date
  amount : Dec
  currency : String
  operation : String
  description : String
  direction : String
  transfer_type : Option String
  source : Option String
deriving DecidableEq, Repr

/-- The sign-derived direction expression shared by
freedom_parser.py lines 110-114 and kaspi_parser.py lines 153-157. -/
def directionOf (d : Dec) : String :=
  if d.num < 0 then "expense" else if 0 < d.num then "income" else "neutral"

/-- Named capture groups of TX_HEAD_RE:
{date, amount, currency, operation, details}. -/
structure HeadGroups where
  date : String
  amount : String
  currency : String
  operation : String
  details : Option String
deriving DecidableEq, Repr

/-- Model of `raw_amount.startswith(("−", "-"))`. -/
def startsNeg (s : String) : Bool :=
  match s.toList with
  | c :: _ => c = '−' || c = '-'
  | [] => false

/-- Shape of a `dd.mm.yyyy` date token. -/
def isDateShape : List Char → Bool
  | [d1, d2, '.', m1, m2, '.', y1, y2, y3, y4] =>
    d1.isDigit && d2.isDigit && m1.isDigit && m2.isDigit &&
      y1.isDigit && y2.isDigit && y3.isDigit && y4.isDigit
  | _ => false

/-- Sign glyphs admitted on an amount token. -/
def isSignGlyph (c : Char) : Bool := c = '+' || c = '-' || c = '−'

/-- Modelled from the spec: the shape of the amount capture group of
TX_HEAD_RE (missing with `config.py`) — an optional sign glyph
followed by digits and separator characters, per the §8 examples
`-500,00`, `+3 000,00`, `1 234,56` (spaces cannot occur inside one
whitespace-delimited token). -/
def isAmountShape : List Char → Bool
  | [] => false
  | c :: t =>
    let body := if isSignGlyph c then t else c :: t
    !body.isEmpty && body.all (fun c => c.isDigit || c = ',' || c = '.')
      && body.any Char.isDigit

/-- Whitespace-separated words of a line. -/
def wordsAux : List Char → List Char → List (List Char)
  | [], acc => if acc.isEmpty then [] else [acc.reverse]
  | c :: t, acc =>
    if c.isWhitespace then
      if acc.isEmpty then wordsAux t [] else acc.reverse :: wordsAux t []
    else wordsAux t (c :: acc)

/-- Words of a string. -/
def pyWords (s : String) : List String := (wordsAux s.toList []).map String.mk

/-- Modelled from the spec: `TX_HEAD_RE.match` (missing with
`config.py`).  Per §4.4 and the example in freedom_parser.py line 92
(`17.12.2025  -500,00 KZT Перевод Безвозмездный перевод`), a head
line is date token, amount token, currency token, operation token,
then optional free-text details. -/
def txHeadMatch (line : String) : Option HeadGroups :=
  match pyWords line with
  | date :: amount :: currency :: operation :: rest =>
    if isDateShape date.toList && isAmountShape amount.toList then
      some ⟨date, amount, currency, operation,
        if rest.isEmpty then none else some (String.intercalate " " rest)⟩
    else none
  | _ => none

/-- Modelled from the spec: `DATE_START_RE.match` (missing with
`config.py`) — §4.3: "a line beginning with a date token". -/
def isDateStart (line : String) : Bool := isDateShape (line.toList.take 10)

/-- Body of `_parse_head_line` (freedom_parser.py lines 98-128) after
a successful TX_HEAD_RE match: decode the date (an uncaught
`strptime` `ValueError` is an `.error`), normalize the amount (an
uncaught `Decimal` `InvalidOperation` is an `.error`), force the sign
from the raw token's leading glyph, derive the direction from the
final sign, coerce the operation label against the vocabulary
KNOWN_OPERATIONS (a parameter, missing with `config.py`). -/
def parse_head_line_groups (vocab : List String) (g : HeadGroups) :
    Except PyErr Tx :=
  match strptimeDMY4 g.date with
  | none => .error .valueError
  | some date =>
    match to_decimal g.amount with
    | .error e => .error e
    | .ok amount0 =>
      let amount := if startsNeg g.amount then Dec.negAbs amount0 else Dec.dabs amount0
      let direction := directionOf amount
      let operation :=
        let op := pyCapitalize g.operation
        if vocab.contains op then op else "Покупка"
      .ok { date := date, amount := amount, currency := g.currency,
            operation := operation, description := g.details.getD "",
            direction := direction, transfer_type := none, source := none }

/-- Embedding of `_parse_head_line` (freedom_parser.py lines 87-128): a line the
full pattern does not match yields `None`; otherwise the body above
runs (and may raise). -/
def parse_head_line (vocab : List String) (line : String) :
    Except PyErr (Option Tx) :=
  match txHeadMatch line with
  | none => .ok none
  | some g => (parse_head_line_groups vocab g).map some

/-- Body of `_parse_head` (parser.py lines 56-80) after a successful
match: like the freedom decoder, but the sign is only forced on a
leading negation glyph (no `abs` otherwise) and `direction` is the
constant `"expense"`. -/
def parse_head_groups (vocab : List String) (g : HeadGroups) :
    Except PyErr Tx :=
  match strptimeDMY4 g.date with
  | none => .error .valueError
  | some date =>
    match to_decimal g.amount with
    | .error e => .error e
    | .ok amount0 =>
      let amount := if startsNeg g.amount then Dec.negAbs amount0 else amount0
      let operation :=
        let op := pyCapitalize g.operation
        if vocab.contains op then op else "Покупка"
      .ok { date := date, amount := amount, currency := g.currency,
            operation := operation, description := g.details.getD "",
            direction := "expense", transfer_type := none, source := none }

/-- The `flush()` closure of `_parse_page` (freedom_parser.py lines
58-68): clean the accumulated description of the open block, if any,
and append the block to the collected list. -/
def flushTx (markers : List String) (noise : List (String → String))
    (cur : Option Tx) (acc : List Tx) : List Tx :=
  match cur with
  | none => acc
  | some c => acc ++ [{ c with description := clean_description markers noise c.description }]

/-- The line loop of `_parse_page` (freedom_parser.py lines 70-84):
a line matching DATE_START_RE flushes the open block and attempts a
head decode (whose exceptions propagate); any other line extends the
open block's description or is discarded. -/
def parse_page_freedom_go (vocab markers : List String)
    (noise : List (String → String)) :
    List String → Option Tx → List Tx → Except PyErr (List Tx)
  | [], cur, acc => .ok (flushTx markers noise cur acc)
  | line :: rest, cur, acc =>
    if isDateStart line then
      let acc' := flushTx markers noise cur acc
      match parse_head_line vocab line with
      | .error e => .error e
      | .ok h => parse_page_freedom_go vocab markers noise rest h acc'
    else
      match cur with
      | some c =>
        parse_page_freedom_go vocab markers noise rest
          (some { c with description := c.description ++ " " ++ line }) acc
      | none => parse_page_freedom_go vocab markers noise rest none acc

/-- Embedding of `_parse_page` (freedom_parser.py lines 47-84). -/
def parse_page_freedom (vocab markers : List String)
    (noise : List (String → String)) (lines : List String) :
    Except PyErr (List Tx) :=
  parse_page_freedom_go vocab markers noise lines none []

/-- Page loop of `parse_freedom_pdf` (freedom_parser.py lines 30-38),
over pages already extracted to their non-empty stripped lines (the
page-extraction collaborator of spec §6). -/
def freedomPages (vocab markers : List String)
    (noise : List (String → String)) :
    List (List String) → Except PyErr (List Tx)
  | [] => .ok []
  | p :: ps =>
    match parse_page_freedom vocab markers noise p with
    | .error e => .error e
    | .ok txs =>
      match freedomPages vocab markers noise ps with
      | .error e => .error e
      | .ok rest => .ok (txs ++ rest)

/-- Embedding of `parse_freedom_pdf` (freedom_parser.py lines 22-44): concatenate
the per-page results and tag every record's source. -/
def parse_freedom_pdf (vocab markers : List String)
    (noise : List (String → String)) (pages : List (List String)) :
    Except PyErr (List Tx) :=
  (freedomPages vocab markers noise pages).map
    (List.map (fun tx => { tx with source := some "freedom" }))

/-- Column-index state of the Kaspi extractor
(kaspi_parser.py line 99). -/
structure KIdx where
  date : Option Nat
  amount : Option Nat
  operation : Option Nat
  details : Option Nat
deriving DecidableEq, Repr

/-- Row normalization `[(cell or "").strip() for cell in row]`
(kaspi_parser.py line 111). -/
def normalizeRow (row : List (Option String)) : List String :=
  row.map (fun c => pyStripStr (c.getD ""))

/-- Embedding of `_parse_date` (kaspi_parser.py lines 42-49): strip, strptime with
`%d.%m.%y`, and the surrounding try/except makes failure `None`. -/
def kaspi_parse_date (v : String) : Option Date := strptimeDMY2 (pyStripStr v)

/-- Embedding of `_looks_like_header` (kaspi_parser.py lines 63-72). -/
def looks_like_header (row : List String) : Bool :=
  let joined := String.intercalate " " ((row.filter (fun c => c ≠ "")).map pyLower)
  containsSub joined "дата" && containsSub joined "сумм" && containsSub joined "операц"

/-- One iteration of the header-row cell loop (kaspi_parser.py lines
116-125): an if/elif chain on the indicator substrings of the
lowercased cell, assigning the enumerated cell index. -/
def headerAssignCell (st : KIdx) (p : Nat × String) : KIdx :=
  let low := pyLower p.2
  if containsSub low "дата" then { st with date := some p.1 }
  else if containsSub low "сумм" then { st with amount := some p.1 }
  else if containsSub low "операц" then { st with operation := some p.1 }
  else if containsSub low "детал" then { st with details := some p.1 }
  else st

/-- Header-row index assignment (kaspi_parser.py lines 116-125):
the cell loop over the enumerated row. -/
def headerAssign (s : KIdx) (row : List String) : KIdx :=
  row.enum.foldl headerAssignCell s

/-- Eight-character `\d{2}\.\d{2}\.\d{2}` date-like prefix. -/
def isShortDatePrefix (l : List Char) : Bool :=
  match l.take 8 with
  | [d1, d2, '.', m1, m2, '.', y1, y2] =>
    d1.isDigit && d2.isDigit && m1.isDigit && m2.isDigit && y1.isDigit && y2.isDigit
  | _ => false

/-- Embedding of `_looks_like_transaction_row` (kaspi_parser.py lines 75-81). -/
def looks_like_transaction_row (row : List String) : Bool :=
  match row with
  | [] => false
  | c0 :: _ => if c0 = "" then false else isShortDatePrefix (pyStripStr c0).toList

/-- Model of `row[i]`, whose out-of-range access raises `IndexError`. -/
def getCell (row : List String) (i : Nat) : Except PyErr String :=
  match row[i]? with
  | some c => .ok c
  | none => .error .indexError

/-- Body of the per-row `try` block (kaspi_parser.py lines 136-163):
date decode (an unparsable date is a plain skip, not an exception),
amount decode, operation capitalization without vocabulary coercion,
details read when mapped, per-row description cleaning, direction
from the amount sign. -/
def decodeRow (markers : List String) (noise : List (String → String))
    (iDate iAmount iOp : Nat) (iDet : Option Nat) (row : List String) :
    Except PyErr (Option Tx) :=
  match getCell row iDate with
  | .error e => .error e
  | .ok dcell =>
    match kaspi_parse_date dcell with
    | none => .ok none
    | some date =>
      match getCell row iAmount with
      | .error e => .error e
      | .ok acell =>
        match kaspi_parse_amount acell with
        | .error e => .error e
        | .ok amount =>
          match getCell row iOp with
          | .error e => .error e
          | .ok ocell =>
            match (match iDet with | some i => getCell row i | none => .ok "") with
            | .error e => .error e
            | .ok rawDescription =>
              .ok (some
                { date := date, amount := amount, currency := "KZT",
                  operation := pyCapitalize ocell,
                  description := clean_description markers noise rawDescription,
                  direction := directionOf amount,
                  transfer_type := none, source := some "kaspi" })

/-- One iteration of the row loop (kaspi_parser.py lines 109-166):
normalize; a header row reassigns indices and is skipped as data;
rows are skipped while the three mandatory indices are unknown; rows
failing the transaction heuristic are skipped; the row decode runs
under `try`, any exception skipping just this row. -/
def kstep (markers : List String) (noise : List (String → String))
    (s : KIdx) (rawRow : List (Option String)) : KIdx × Option Tx :=
  let row := normalizeRow rawRow
  if looks_like_header row then (headerAssign s row, none)
  else
    match s.date, s.amount, s.operation with
    | some iD, some iA, some iO =>
      if looks_like_transaction_row row then
        match decodeRow markers noise iD iA iO s.details row with
        | .error _ => (s, none)
        | .ok r => (s, r)
      else (s, none)
    | _, _, _ => (s, none)

/-- The row loop over one page's table, threading the index state and
collecting the emitted records in row order. -/
def processRows (markers : List String) (noise : List (String → String))
    (s : KIdx) : List (List (Option String)) → KIdx × List Tx
  | [] => (s, [])
  | r :: rest =>
    let st := kstep markers noise s r
    let rec' := processRows markers noise st.1 rest
    (rec'.1, (match st.2 with | some tx => tx :: rec'.2 | none => rec'.2))

/-- Page loop of `parse_kaspi_pdf` (kaspi_parser.py lines 101-168):
a page without a table (or with an empty one) contributes nothing and
leaves the carried index state untouched. -/
def kaspiDocFrom (markers : List String) (noise : List (String → String))
    (s : KIdx) : List (Option (List (List (Option String)))) → List Tx
  | [] => []
  | none :: ps => kaspiDocFrom markers noise s ps
  | some table :: ps =>
    if table.isEmpty then kaspiDocFrom markers noise s ps
    else
      let pr := processRows markers noise s table
      pr.2 ++ kaspiDocFrom markers noise pr.1 ps

/-- Embedding of `parse_kaspi_pdf` (kaspi_parser.py lines 87-171) over the pages'
extracted tables: all four column indices start unknown. -/
def parse_kaspi_pdf (markers : List String) (noise : List (String → String))
    (pages : List (Option (List (List (Option String))))) : List Tx :=
  kaspiDocFrom markers noise ⟨none, none, none, none⟩ pages

/-! ## Theorems -/

/-- C3 counterexample: the amount normalizer is not total — on the
input `"-"` the stripped result is the nonempty non-numeral `"-"`,
and `Decimal("-")` raises `InvalidOperation`, in both the
line-format normalizer `_to_decimal` and the tabular-format
normalizer `_parse_amount`. -/
theorem c3_normalizer_not_total :
    to_decimal "-" = .error .invalidOperation ∧
    kaspi_parse_amount "-" = .error .invalidOperation :=
  ⟨rfl, rfl⟩

/-- C3 (amended): both amount normalizers return the decimal zero
whenever sign/separator/non-numeric stripping consumes the whole
input, and the only exception either can raise is `InvalidOperation`
from the `Decimal` constructor, raised exactly when the stripped
result is nonempty and not a decimal numeral. -/
theorem c3_zero_fallback :
    (∀ v : String, toDecimalChars v.toList = [] → to_decimal v = .ok Dec.zero) ∧
    (∀ v : String, kaspiAmountChars v.toList = [] → kaspi_parse_amount v = .ok Dec.zero) ∧
    (∀ v : String, (∃ d, to_decimal v = .ok d) ∨ to_decimal v = .error .invalidOperation) ∧
    (∀ v : String, (∃ d, kaspi_parse_amount v = .ok d) ∨
      kaspi_parse_amount v = .error .invalidOperation) := by
  refine ⟨fun v h => ?_, fun v h => ?_, fun v => ?_, fun v => ?_⟩
  · simp only [to_decimal, h]
    rfl
  · simp only [kaspi_parse_amount, h]
    rfl
  · simp only [to_decimal]
    cases parseDecimal (if (toDecimalChars v.toList).isEmpty then ['0']
        else toDecimalChars v.toList) with
    | none => exact Or.inr rfl
    | some d => exact Or.inl ⟨d, rfl⟩
  · simp only [kaspi_parse_amount]
    cases parseDecimal (if (kaspiAmountChars v.toList).isEmpty then ['0']
        else kaspiAmountChars v.toList) with
    | none => exact Or.inr rfl
    | some d => exact Or.inl ⟨d, rfl⟩

/-- C3 witness: the spec's own garbage example `"???"` is fully
stripped and yields zero from both normalizers. -/
theorem c3_zero_fallback_witness :
    to_decimal "???" = .ok Dec.zero ∧ kaspi_parse_amount "???" = .ok Dec.zero :=
  ⟨c3_zero_fallback.1 "???" rfl, c3_zero_fallback.2.1 "???" rfl⟩

/-- C4 counterexample: with markers `["b", "a"]` and text `"xab"`,
the source `strip_footer` truncates at index 2 (the position of the
first listed marker `"b"`), not at the smallest occurrence index 1
(held by `"a"`), which the spec-worded variant uses. -/
theorem c4_first_listed_marker_wins :
    strip_footer ["b", "a"] "xab" = "xa" ∧
    strip_footer_by_spec ["b", "a"] "xab" = "x" ∧
    strip_footer ["b", "a"] "xab" ≠ strip_footer_by_spec ["b", "a"] "xab" := by
  refine ⟨rfl, rfl, ?_⟩
  decide

/-- C4 (amended): `strip_footer` scans the configured markers in list
order and truncates at the occurrence index of the first listed
marker that occurs anywhere in the lowercased text (so list order
takes precedence over occurrence position), and returns the text
unchanged when no marker occurs. -/
theorem c4_footer_truncation :
    (∀ (markers : List String) (t : String),
      (∀ m ∈ markers, pyFind (pyLower t) m = none) → strip_footer markers t = t) ∧
    (∀ (pre : List String) (m : String) (rest : List String) (t : String) (i : Nat),
      (∀ m' ∈ pre, pyFind (pyLower t) m' = none) → pyFind (pyLower t) m = some i →
      strip_footer (pre ++ m :: rest) t = String.mk (t.toList.take i)) := by
  constructor
  · intro markers t h
    induction markers with
    | nil => rfl
    | cons m rest ih =>
      have hm : pyFind (pyLower t) m = none := h m (List.mem_cons_self m rest)
      simp only [strip_footer, hm]
      exact ih fun m' hm' => h m' (List.mem_cons_of_mem m hm')
  · intro pre m rest t i hpre hm
    induction pre with
    | nil => simp only [List.nil_append, strip_footer, hm]
    | cons p pre' ih =>
      have hp : pyFind (pyLower t) p = none := hpre p (List.mem_cons_self p pre')
      simp only [List.cons_append, strip_footer, hp]
      exact ih fun m' hm' => hpre m' (List.mem_cons_of_mem p hm')

/-- C4 witness: no marker of `["q"]` occurs in `"abc"`, which is
returned unchanged; with markers `["zz", "cd", "ab"]` on `"abcdef"`,
the first listed occurring marker is `"cd"` at index 2, so the text
is truncated there. -/
theorem c4_footer_truncation_witness :
    strip_footer ["q"] "abc" = "abc" ∧
    strip_footer ["zz", "cd", "ab"] "abcdef" = String.mk ("abcdef".toList.take 2) := by
  constructor
  · exact c4_footer_truncation.1 ["q"] "abc" (by decide)
  · exact c4_footer_truncation.2 ["zz"] "cd" ["ab"] "abcdef" 2 (by decide) (by decide)

/-- A non-header row leaves the carried column-index state untouched,
whatever else it does. -/
theorem kstep_fst_of_not_header (markers : List String)
    (noise : List (String → String)) (s : KIdx) (r : List (Option String))
    (hh : looks_like_header (normalizeRow r) = false) :
    (kstep markers noise s r).1 = s := by
  simp only [kstep, hh, Bool.false_eq_true, if_false]
  split
  · split
    · split <;> rfl
    · rfl
  · rfl

/-- When the three mandatory indices are known and the row decode
raises, the row-loop step emits nothing and keeps the state. -/
theorem kstep_of_decode_error (markers : List String)
    (noise : List (String → String)) (s : KIdx) (r : List (Option String))
    (iD iA iO : Nat) (e : PyErr)
    (h1 : s.date = some iD) (h2 : s.amount = some iA) (h3 : s.operation = some iO)
    (hh : looks_like_header (normalizeRow r) = false)
    (hd : decodeRow markers noise iD iA iO s.details (normalizeRow r) = .error e) :
    kstep markers noise s r = (s, none) := by
  obtain ⟨d, a, o, det⟩ := s
  simp only at h1 h2 h3 hd
  subst h1 h2 h3
  simp only [kstep, hh, Bool.false_eq_true, if_false]
  cases hlt : looks_like_transaction_row (normalizeRow r)
  · simp [hlt]
  · simp [hlt, hd]

/-- Processing a row whose decode raises is the same as not seeing the
row at all: the row loop continues on the rest with the same state. -/
theorem processRows_cons_of_decode_error (markers : List String)
    (noise : List (String → String)) (s : KIdx) (r : List (Option String))
    (rest : List (List (Option String))) (iD iA iO : Nat) (e : PyErr)
    (h1 : s.date = some iD) (h2 : s.amount = some iA) (h3 : s.operation = some iO)
    (hh : looks_like_header (normalizeRow r) = false)
    (hd : decodeRow markers noise iD iA iO s.details (normalizeRow r) = .error e) :
    processRows markers noise s (r :: rest) = processRows markers noise s rest := by
  have hk := kstep_of_decode_error markers noise s r iD iA iO e h1 h2 h3 hh hd
  simp only [processRows, hk]

/-- C1 (amended): in the tabular (format B) extractor every per-row
exception is caught at the row boundary — the row emits nothing and
the index state is kept — so nothing escapes `parse_kaspi_pdf`; in
the line format (A) the head-line decoder returns no-match (without
raising) exactly when the full head pattern fails to match, while a
matching head line whose date token fails to parse propagates the
`strptime` `ValueError` (see the counterexample). -/
theorem c1_error_containment :
    (∀ (markers : List String) (noise : List (String → String)) (s : KIdx)
        (r : List (Option String)) (iD iA iO : Nat) (e : PyErr),
      s.date = some iD → s.amount = some iA → s.operation = some iO →
      looks_like_header (normalizeRow r) = false →
      decodeRow markers noise iD iA iO s.details (normalizeRow r) = .error e →
      kstep markers noise s r = (s, none)) ∧
    (∀ (vocab : List String) (line : String),
      txHeadMatch line = none → parse_head_line vocab line = .ok none) := by
  constructor
  · intro markers noise s r iD iA iO e h1 h2 h3 hh hd
    exact kstep_of_decode_error markers noise s r iD iA iO e h1 h2 h3 hh hd
  · intro vocab line h
    simp [parse_head_line, h]

/-- C1 counterexample: the line
`"31.02.2025 -500,00 KZT Перевод Оплата"` is recognized as a
transaction start, the full head pattern matches it, its date token
fails calendar validation (February 31st), and the resulting
`ValueError` escapes the format-A per-document entry point instead of
the decoder returning no-match. -/
theorem c1_date_error_escapes_entry_point :
    isDateStart "31.02.2025 -500,00 KZT Перевод Оплата" = true ∧
    (txHeadMatch "31.02.2025 -500,00 KZT Перевод Оплата").isSome = true ∧
    strptimeDMY4 "31.02.2025" = none ∧
    parse_freedom_pdf [] [] [] [["31.02.2025 -500,00 KZT Перевод Оплата"]] =
      .error .valueError :=
  ⟨rfl, rfl, rfl, rfl⟩

/-- C1 witness: a row whose amount column index lies beyond the row
raises `IndexError` inside the decode and is dropped with the state
kept; a line the head pattern does not match yields `.ok none`. -/
theorem c1_error_containment_witness :
    kstep [] [] ⟨some 0, some 5, some 2, none⟩
        [some "01.02.24", some "x", some "op"] =
      (⟨some 0, some 5, some 2, none⟩, none) ∧
    parse_head_line [] "Остаток на конец периода" = .ok none :=
  ⟨c1_error_containment.1 [] [] ⟨some 0, some 5, some 2, none⟩
      [some "01.02.24", some "x", some "op"] 0 5 2 .indexError rfl rfl rfl rfl rfl,
   c1_error_containment.2 [] "Остаток на конец периода" rfl⟩

/-- C7: while any of the date/amount/operation indices is unknown,
every non-header row is skipped; and a page containing no header row
is processed entirely with the incoming indices — each qualifying row
is decoded with them and the state they form survives the page
unchanged (so indices learned from a header on an earlier page keep
governing later headerless pages until some header reassigns them). -/
theorem c7_column_index_persistence :
    (∀ (markers : List String) (noise : List (String → String)) (s : KIdx)
        (r : List (Option String)),
      looks_like_header (normalizeRow r) = false →
      (s.date = none ∨ s.amount = none ∨ s.operation = none) →
      kstep markers noise s r = (s, none)) ∧
    (∀ (markers : List String) (noise : List (String → String)) (s : KIdx)
        (table : List (List (Option String))),
      (∀ r ∈ table, looks_like_header (normalizeRow r) = false) →
      processRows markers noise s table =
        (s, table.filterMap (fun r => (kstep markers noise s r).2))) := by
  constructor
  · intro markers noise s r hh hu
    obtain ⟨d, a, o, det⟩ := s
    simp only [kstep, hh, Bool.false_eq_true, if_false]
    rcases hu with h | h | h <;> simp only at h <;> subst h
    · rfl
    · cases d <;> rfl
    · cases d <;> cases a <;> rfl
  · intro markers noise s table
    induction table with
    | nil => intro _; rfl
    | cons r rest ih =>
      intro h
      have hr : looks_like_header (normalizeRow r) = false :=
        h r (List.mem_cons_self r rest)
      have hfst : (kstep markers noise s r).1 = s :=
        kstep_fst_of_not_header markers noise s r hr
      have ihr := ih fun r' hr' => h r' (List.mem_cons_of_mem r hr')
      simp only [processRows, hfst, ihr]
      cases hsnd : (kstep markers noise s r).2 with
      | none => simp [List.filterMap_cons, hsnd]
      | some tx => simp [List.filterMap_cons, hsnd]

/-- C7 witness: with all indices unknown a data-looking row is
skipped with no learning; and a headerless one-row page is processed
with the incoming indices, which survive it unchanged. -/
theorem c7_column_index_persistence_witness :
    kstep [] [] ⟨none, none, none, none⟩ [some "01.02.24", some "-5", some "x"] =
      (⟨none, none, none, none⟩, none) ∧
    processRows [] [] ⟨some 0, some 1, some 2, none⟩
        [[some "01.02.24", some "-5", some "x"]] =
      (⟨some 0, some 1, some 2, none⟩,
        [[some "01.02.24", some "-5", some "x"]].filterMap
          (fun r => (kstep [] [] ⟨some 0, some 1, some 2, none⟩ r).2)) :=
  ⟨c7_column_index_persistence.1 [] [] ⟨none, none, none, none⟩
      [some "01.02.24", some "-5", some "x"] rfl (Or.inl rfl),
   c7_column_index_persistence.2 [] [] ⟨some 0, some 1, some 2, none⟩
      [[some "01.02.24", some "-5", some "x"]] (by decide)⟩

/-- Skipping an erroring row commutes with the page loop of the
document: the page with the row behaves like the page without it. -/
theorem kaspiDoc_cons_of_decode_error (markers : List String)
    (noise : List (String → String)) (s : KIdx) (r : List (Option String))
    (rest : List (List (Option String)))
    (ps : List (Option (List (List (Option String))))) (iD iA iO : Nat) (e : PyErr)
    (h1 : s.date = some iD) (h2 : s.amount = some iA) (h3 : s.operation = some iO)
    (hh : looks_like_header (normalizeRow r) = false)
    (hd : decodeRow markers noise iD iA iO s.details (normalizeRow r) = .error e) :
    kaspiDocFrom markers noise s (some (r :: rest) :: ps) =
      kaspiDocFrom markers noise s (some rest :: ps) := by
  have hrow := processRows_cons_of_decode_error markers noise s r rest iD iA iO e
    h1 h2 h3 hh hd
  cases rest with
  | nil =>
    have hempty : processRows markers noise s ([] : List (List (Option String))) =
        (s, []) := rfl
    simp only [kaspiDocFrom, hrow, hempty, List.isEmpty_cons, List.isEmpty_nil,
      if_true, Bool.false_eq_true, if_false, List.nil_append]
  | cons r2 rest2 =>
    simp only [kaspiDocFrom, hrow, List.isEmpty_cons, Bool.false_eq_true, if_false]

/-- C8: an exception raised while decoding one row of a format-B
table is caught at the row boundary — processing the page from that
row onward equals processing it without the row (so no record, not
even partial, is emitted for it), and the same equality holds for the
whole remaining document, pages after the current one included. -/
theorem c8_row_exception_is_row_local :
    (∀ (markers : List String) (noise : List (String → String)) (s : KIdx)
        (r : List (Option String)) (rest : List (List (Option String)))
        (iD iA iO : Nat) (e : PyErr),
      s.date = some iD → s.amount = some iA → s.operation = some iO →
      looks_like_header (normalizeRow r) = false →
      decodeRow markers noise iD iA iO s.details (normalizeRow r) = .error e →
      processRows markers noise s (r :: rest) = processRows markers noise s rest) ∧
    (∀ (markers : List String) (noise : List (String → String)) (s : KIdx)
        (r : List (Option String)) (rest : List (List (Option String)))
        (ps : List (Option (List (List (Option String))))) (iD iA iO : Nat)
        (e : PyErr),
      s.date = some iD → s.amount = some iA → s.operation = some iO →
      looks_like_header (normalizeRow r) = false →
      decodeRow markers noise iD iA iO s.details (normalizeRow r) = .error e →
      kaspiDocFrom markers noise s (some (r :: rest) :: ps) =
        kaspiDocFrom markers noise s (some rest :: ps)) :=
  ⟨fun markers noise s r rest iD iA iO e h1 h2 h3 hh hd =>
    processRows_cons_of_decode_error markers noise s r rest iD iA iO e h1 h2 h3 hh hd,
   fun markers noise s r rest ps iD iA iO e h1 h2 h3 hh hd =>
    kaspiDoc_cons_of_decode_error markers noise s r rest ps iD iA iO e h1 h2 h3 hh hd⟩

/-- C8 witness: a row whose amount cell is the non-numeral `"-"`
raises `InvalidOperation` during decode; the page and the remaining
document behave exactly as if the row were absent, and the following
valid row is still extracted. -/
theorem c8_row_exception_is_row_local_witness :
    processRows [] [] ⟨some 0, some 1, some 2, none⟩
        ([some "01.02.24", some "-", some "op"] ::
          [[some "02.02.24", some "5", some "pay"]]) =
      processRows [] [] ⟨some 0, some 1, some 2, none⟩
        [[some "02.02.24", some "5", some "pay"]] ∧
    kaspiDocFrom [] [] ⟨some 0, some 1, some 2, none⟩
        (some ([some "01.02.24", some "-", some "op"] ::
          [[some "02.02.24", some "5", some "pay"]]) :: [none]) =
      kaspiDocFrom [] [] ⟨some 0, some 1, some 2, none⟩
        (some [[some "02.02.24", some "5", some "pay"]] :: [none]) ∧
    (processRows [] [] ⟨some 0, some 1, some 2, none⟩
        [[some "02.02.24", some "5", some "pay"]]).2.length = 1 :=
  ⟨c8_row_exception_is_row_local.1 [] [] ⟨some 0, some 1, some 2, none⟩
      [some "01.02.24", some "-", some "op"] [[some "02.02.24", some "5", some "pay"]]
      0 1 2 .invalidOperation rfl rfl rfl rfl rfl,
   c8_row_exception_is_row_local.2 [] [] ⟨some 0, some 1, some 2, none⟩
      [some "01.02.24", some "-", some "op"] [[some "02.02.24", some "5", some "pay"]]
      [none] 0 1 2 .invalidOperation rfl rfl rfl rfl rfl,
   rfl⟩

/-- A pair drawn from `List.enumFrom` has its second component in the
underlying list. -/
theorem snd_mem_of_mem_enumFrom {α : Type} (l : List α) (n : Nat) (p : Nat × α)
    (h : p ∈ List.enumFrom n l) : p.2 ∈ l := by
  induction l generalizing n with
  | nil => simp [List.enumFrom] at h
  | cons a t ih =>
    simp only [List.enumFrom, List.mem_cons] at h
    rcases h with h | h
    · subst h
      exact List.mem_cons_self a t
    · exact List.mem_cons_of_mem a (ih (n + 1) h)

/-- The header cell loop never changes the date index when no cell
contains the date indicator. -/
theorem headerFold_date (l : List (Nat × String)) (st : KIdx)
    (h : ∀ p ∈ l, containsSub (pyLower p.2) "дата" = false) :
    (l.foldl headerAssignCell st).date = st.date := by
  induction l generalizing st with
  | nil => rfl
  | cons p t ih =>
    have hp := h p (List.mem_cons_self p t)
    have hstep : (headerAssignCell st p).date = st.date := by
      simp only [headerAssignCell, hp, Bool.false_eq_true, if_false]
      split
      · rfl
      · split
        · rfl
        · split
          · rfl
          · rfl
    rw [List.foldl_cons, ih (headerAssignCell st p) fun p' hp' =>
      h p' (List.mem_cons_of_mem p hp'), hstep]

/-- The header cell loop never changes the amount index when no cell
contains the amount indicator. -/
theorem headerFold_amount (l : List (Nat × String)) (st : KIdx)
    (h : ∀ p ∈ l, containsSub (pyLower p.2) "сумм" = false) :
    (l.foldl headerAssignCell st).amount = st.amount := by
  induction l generalizing st with
  | nil => rfl
  | cons p t ih =>
    have hp := h p (List.mem_cons_self p t)
    have hstep : (headerAssignCell st p).amount = st.amount := by
      simp only [headerAssignCell, hp, Bool.false_eq_true, if_false]
      split
      · rfl
      · split
        · rfl
        · split
          · rfl
          · rfl
    rw [List.foldl_cons, ih (headerAssignCell st p) fun p' hp' =>
      h p' (List.mem_cons_of_mem p hp'), hstep]

/-- The header cell loop never changes the operation index when no
cell contains the operation indicator. -/
theorem headerFold_operation (l : List (Nat × String)) (st : KIdx)
    (h : ∀ p ∈ l, containsSub (pyLower p.2) "операц" = false) :
    (l.foldl headerAssignCell st).operation = st.operation := by
  induction l generalizing st with
  | nil => rfl
  | cons p t ih =>
    have hp := h p (List.mem_cons_self p t)
    have hstep : (headerAssignCell st p).operation = st.operation := by
      simp only [headerAssignCell, hp, Bool.false_eq_true, if_false]
      split
      · rfl
      · split
        · rfl
        · split
          · rfl
          · rfl
    rw [List.foldl_cons, ih (headerAssignCell st p) fun p' hp' =>
      h p' (List.mem_cons_of_mem p hp'), hstep]

/-- The header cell loop never changes the details index when no cell
contains the details indicator. -/
theorem headerFold_details (l : List (Nat × String)) (st : KIdx)
    (h : ∀ p ∈ l, containsSub (pyLower p.2) "детал" = false) :
    (l.foldl headerAssignCell st).details = st.details := by
  induction l generalizing st with
  | nil => rfl
  | cons p t ih =>
    have hp := h p (List.mem_cons_self p t)
    have hstep : (headerAssignCell st p).details = st.details := by
      simp only [headerAssignCell]
      split
      · rfl
      · split
        · rfl
        · split
          · rfl
          · simp [hp]
    rw [List.foldl_cons, ih (headerAssignCell st p) fun p' hp' =>
      h p' (List.mem_cons_of_mem p hp'), hstep]

/-- C10: on a detected header row the extractor replaces the index
state by the header assignment and emits nothing; and the assignment
overwrites an index only when its indicator substring occurs in some
cell of that row — an index whose indicator is absent (in particular
a details index when the new header has no details cell) retains its
previously learned value. -/
theorem c10_header_overwrites_only_present_indicators :
    ∀ (markers : List String) (noise : List (String → String)) (s : KIdx)
      (r : List (Option String)),
    looks_like_header (normalizeRow r) = true →
    kstep markers noise s r = (headerAssign s (normalizeRow r), none) ∧
    ((∀ cell ∈ normalizeRow r, containsSub (pyLower cell) "дата" = false) →
      (headerAssign s (normalizeRow r)).date = s.date) ∧
    ((∀ cell ∈ normalizeRow r, containsSub (pyLower cell) "сумм" = false) →
      (headerAssign s (normalizeRow r)).amount = s.amount) ∧
    ((∀ cell ∈ normalizeRow r, containsSub (pyLower cell) "операц" = false) →
      (headerAssign s (normalizeRow r)).operation = s.operation) ∧
    ((∀ cell ∈ normalizeRow r, containsSub (pyLower cell) "детал" = false) →
      (headerAssign s (normalizeRow r)).details = s.details) := by
  intro markers noise s r hh
  refine ⟨by simp [kstep, hh], fun h => ?_, fun h => ?_, fun h => ?_, fun h => ?_⟩
  · exact headerFold_date _ s fun p hp =>
      h p.2 (snd_mem_of_mem_enumFrom (normalizeRow r) 0 p hp)
  · exact headerFold_amount _ s fun p hp =>
      h p.2 (snd_mem_of_mem_enumFrom (normalizeRow r) 0 p hp)
  · exact headerFold_operation _ s fun p hp =>
      h p.2 (snd_mem_of_mem_enumFrom (normalizeRow r) 0 p hp)
  · exact headerFold_details _ s fun p hp =>
      h p.2 (snd_mem_of_mem_enumFrom (normalizeRow r) 0 p hp)

/-- C10 witness: a later header row `Дата | Сумма | Операция` without
a details cell reassigns the three mandatory indices but leaves the
details index learned earlier (position 3) in place. -/
theorem c10_header_overwrite_witness :
    kstep [] [] ⟨some 9, some 9, some 9, some 3⟩
        [some "Дата", some "Сумма", some "Операция"] =
      (headerAssign ⟨some 9, some 9, some 9, some 3⟩
        (normalizeRow [some "Дата", some "Сумма", some "Операция"]), none) ∧
    (headerAssign ⟨some 9, some 9, some 9, some 3⟩
        (normalizeRow [some "Дата", some "Сумма", some "Операция"])).details =
      some 3 :=
  ⟨(c10_header_overwrites_only_present_indicators [] [] ⟨some 9, some 9, some 9, some 3⟩
      [some "Дата", some "Сумма", some "Операция"] rfl).1,
   (c10_header_overwrites_only_present_indicators [] [] ⟨some 9, some 9, some 9, some 3⟩
      [some "Дата", some "Сумма", some "Операция"] rfl).2.2.2.2 (by decide)⟩

/-- C9: both format-A head decoders emit, as operation, the
capitalized token when it belongs to the closed vocabulary and the
single default label `"Покупка"` otherwise — never the non-member
token itself; the format-B row decoder emits the capitalized
operation cell as-is, with no vocabulary involved. -/
theorem c9_operation_vocabulary_coercion :
    (∀ (vocab : List String) (g : HeadGroups) (tx : Tx),
      parse_head_line_groups vocab g = .ok tx →
      tx.operation = (if vocab.contains (pyCapitalize g.operation)
        then pyCapitalize g.operation else "Покупка")) ∧
    (∀ (vocab : List String) (g : HeadGroups) (tx : Tx),
      parse_head_groups vocab g = .ok tx →
      tx.operation = (if vocab.contains (pyCapitalize g.operation)
        then pyCapitalize g.operation else "Покупка")) ∧
    (∀ (markers : List String) (noise : List (String → String))
        (iD iA iO : Nat) (iDet : Option Nat) (row : List String) (tx : Tx)
        (ocell : String),
      getCell row iO = .ok ocell →
      decodeRow markers noise iD iA iO iDet row = .ok (some tx) →
      tx.operation = pyCapitalize ocell) := by
  refine ⟨fun vocab g tx h => ?_, fun vocab g tx h => ?_,
    fun markers noise iD iA iO iDet row tx ocell hoc h => ?_⟩
  · simp only [parse_head_line_groups] at h
    cases hdt : strptimeDMY4 g.date <;> rw [hdt] at h
    · simp at h
    · cases hdec : to_decimal g.amount <;> rw [hdec] at h
      · simp at h
      · simp only [Except.ok.injEq] at h
        subst h
        rfl
  · simp only [parse_head_groups] at h
    cases hdt : strptimeDMY4 g.date <;> rw [hdt] at h
    · simp at h
    · cases hdec : to_decimal g.amount <;> rw [hdec] at h
      · simp at h
      · simp only [Except.ok.injEq] at h
        subst h
        rfl
  · simp only [decodeRow] at h
    split at h
    next e heq => simp at h
    next dcell heqD =>
      split at h
      next heqDate => simp at h
      next date heqDate =>
        split at h
        next e heq => simp at h
        next acell heqA =>
          split at h
          next e heq => simp at h
          next amount heqAm =>
            split at h
            next e heq => simp at h
            next oc heqO =>
              split at h
              next e heq => simp at h
              next desc heqDesc =>
                obtain rfl : ocell = oc := Except.ok.inj (hoc.symm.trans heqO)
                simp only [Except.ok.injEq, Option.some.injEq] at h
                subst h
                rfl

/-- Fixture head groups for the C9 witness. -/
def g9 : HeadGroups := ⟨"17.12.2025", "-500,00", "KZT", "перевод", none⟩

/-- Record emitted by the freedom head decoder on `g9` with
vocabulary `["Перевод"]`. -/
def tx9 : Tx :=
  { date := ⟨17, 12, 2025⟩, amount := ⟨-50000, 2⟩, currency := "KZT",
    operation := "Перевод", description := "", direction := "expense",
    transfer_type := none, source := none }

/-- Record emitted by the kaspi row decoder on the C9 fixture row. -/
def tx9k : Tx :=
  { date := ⟨1, 2, 2024⟩, amount := ⟨-5, 0⟩, currency := "KZT",
    operation := "Покупка товаров", description := "", direction := "expense",
    transfer_type := none, source := some "kaspi" }

/-- C9 witness: a vocabulary member survives coercion in format A,
and format B emits the capitalized cell untouched. -/
theorem c9_operation_vocabulary_coercion_witness :
    tx9.operation = (if List.contains ["Перевод"] (pyCapitalize "перевод")
      then pyCapitalize "перевод" else "Покупка") ∧
    tx9.operation = (if List.contains ["Перевод"] (pyCapitalize "перевод")
      then pyCapitalize "перевод" else "Покупка") ∧
    tx9k.operation = pyCapitalize "покупка товаров" :=
  ⟨c9_operation_vocabulary_coercion.1 ["Перевод"] g9 tx9 rfl,
   c9_operation_vocabulary_coercion.2.1 ["Перевод"] g9 tx9 rfl,
   c9_operation_vocabulary_coercion.2.2 [] [] 0 1 2 none
     ["01.02.24", "-5", "покупка товаров"] tx9k "покупка товаров" rfl rfl⟩

/-- A sign-free numeral parse yields a nonnegative mantissa. -/
theorem parseDecCore_nonneg (l : List Char) (d : Dec)
    (h : parseDecCore 1 l = some d) : 0 ≤ d.num := by
  simp only [parseDecCore] at h
  split at h
  · split at h
    · exact absurd h (by simp)
    · simp only [Option.some.injEq] at h
      subst h
      simp
  · split at h
    · simp only [Option.some.injEq] at h
      subst h
      simp
    · exact absurd h (by simp)
  · exact absurd h (by simp)

/-- Without a leading ASCII minus in the character list, `Decimal`
parses a nonnegative value. -/
theorem parseDecimal_nonneg (l : List Char) (d : Dec) (hm : '-' ∉ l)
    (h : parseDecimal l = some d) : 0 ≤ d.num := by
  unfold parseDecimal at h
  split at h
  · exact parseDecCore_nonneg _ _ h
  · exact absurd (List.mem_cons_self '-' _) hm
  · exact parseDecCore_nonneg _ _ h

/-- The `_to_decimal` character normalization introduces no ASCII
minus when the input has neither an ASCII minus nor a Unicode one. -/
theorem toDecimalChars_no_minus (l : List Char) (h1 : '-' ∉ l) (h2 : '−' ∉ l) :
    '-' ∉ toDecimalChars l := by
  intro hmem
  have hv1 : '-' ∉ (l.map fun c => if c = '−' then '-' else c).filter
      (fun c => c ≠ ' ') := by
    intro hm
    simp only [List.mem_filter, List.mem_map] at hm
    obtain ⟨⟨b, hb, hbe⟩, -⟩ := hm
    by_cases hbb : b = '−'
    · exact h2 (hbb ▸ hb)
    · rw [if_neg hbb] at hbe
      exact h1 (hbe ▸ hb)
  simp only [toDecimalChars, List.mem_filter] at hmem
  obtain ⟨hmem, -⟩ := hmem
  split at hmem
  · exact hv1 (List.mem_of_mem_filter hmem)
  · simp only [List.mem_map] at hmem
    obtain ⟨b, hb, hbe⟩ := hmem
    by_cases hbb : b = ','
    · rw [if_pos hbb] at hbe
      exact absurd hbe (by decide)
    · rw [if_neg hbb] at hbe
      exact hv1 (hbe ▸ hb)

/-- An amount token of the modelled head-pattern shape that does not
start with a negation glyph contains no minus character at all. -/
theorem amount_shape_no_minus (s : String)
    (hs : isAmountShape s.toList = true) (hn : startsNeg s = false) :
    '-' ∉ s.toList ∧ '−' ∉ s.toList := by
  cases hl : s.toList with
  | nil => rw [hl] at hs; exact absurd hs (by decide)
  | cons c t =>
    rw [hl] at hs
    unfold startsNeg at hn
    rw [hl] at hn
    simp only [Bool.or_eq_false_iff, decide_eq_false_iff_not] at hn
    obtain ⟨hn1, hn2⟩ := hn
    simp only [isAmountShape, Bool.and_eq_true, List.all_eq_true] at hs
    obtain ⟨⟨-, hall⟩, -⟩ := hs
    have htail : ∀ x ∈ t, (x.isDigit || decide (x = ',') || decide (x = '.')) = true := by
      intro x hx
      apply hall
      split
      · exact hx
      · exact List.mem_cons_of_mem c hx
    constructor
    · intro hm
      rcases List.mem_cons.1 hm with h | h
      · exact hn2 h.symm
      · have := htail '-' h
        exact absurd this (by decide)
    · intro hm
      rcases List.mem_cons.1 hm with h | h
      · exact hn1 h.symm
      · have := htail '−' h
        exact absurd this (by decide)

/-- For a glyph-free amount token of the modelled shape,
`_to_decimal` succeeds only with a nonnegative value. -/
theorem to_decimal_nonneg (v : String) (d : Dec)
    (hs : isAmountShape v.toList = true) (hn : startsNeg v = false)
    (h : to_decimal v = .ok d) : 0 ≤ d.num := by
  obtain ⟨hm1, hm2⟩ := amount_shape_no_minus v hs hn
  simp only [to_decimal] at h
  split at h
  next d' hparse =>
    simp only [Except.ok.injEq] at h
    subst h
    split at hparse
    next hempty =>
      rw [show parseDecimal ['0'] = some (⟨0, 0⟩ : Dec) from rfl] at hparse
      simp only [Option.some.injEq] at hparse
      subst hparse
      decide
    next hempty =>
      exact parseDecimal_nonneg _ _ (toDecimalChars_no_minus v.toList hm1 hm2) hparse
  next hparse => exact absurd h (by simp)

/-- Taking the absolute value is the identity on nonnegative decimals. -/
theorem Dec.dabs_of_nonneg (d : Dec) (h : 0 ≤ d.num) : Dec.dabs d = d := by
  obtain ⟨n, sc⟩ := d
  simp only [Dec.dabs]
  congr 1
  exact abs_of_nonneg h

/-- C5: for every head line accepted by the full pattern, the emitted
amount is the negated absolute value of the normalized amount when
the raw token starts with an ASCII hyphen or Unicode minus, and the
absolute value otherwise — in `_parse_head_line` for every token, and
in `_parse_head` for every token of the modelled pattern shape (under
which the normalized value of a glyph-free token is nonnegative, so
leaving it unforced equals taking the absolute value). -/
theorem c5_sign_forcing :
    (∀ (vocab : List String) (g : HeadGroups) (tx : Tx) (d : Dec),
      to_decimal g.amount = .ok d →
      parse_head_line_groups vocab g = .ok tx →
      tx.amount = (if startsNeg g.amount then Dec.negAbs d else Dec.dabs d)) ∧
    (∀ (vocab : List String) (g : HeadGroups) (tx : Tx) (d : Dec),
      isAmountShape g.amount.toList = true →
      to_decimal g.amount = .ok d →
      parse_head_groups vocab g = .ok tx →
      tx.amount = (if startsNeg g.amount then Dec.negAbs d else Dec.dabs d)) := by
  constructor
  · intro vocab g tx d hd h
    simp only [parse_head_line_groups] at h
    cases hdt : strptimeDMY4 g.date <;> rw [hdt] at h
    · simp at h
    · rw [hd] at h
      simp only [Except.ok.injEq] at h
      subst h
      rfl
  · intro vocab g tx d hs hd h
    simp only [parse_head_groups] at h
    cases hdt : strptimeDMY4 g.date <;> rw [hdt] at h
    · simp at h
    · rw [hd] at h
      simp only [Except.ok.injEq] at h
      subst h
      cases hsn : startsNeg g.amount
      · simp only [hsn, Bool.false_eq_true, if_false]
        exact (Dec.dabs_of_nonneg d (to_decimal_nonneg g.amount d hs hsn hd)).symm
      · simp [hsn]

/-- Fixture head groups for the C5 witness (negative raw token). -/
def g5 : HeadGroups := ⟨"17.12.2025", "-500,00", "KZT", "Перевод", none⟩

/-- Record emitted by the freedom head decoder on `g5` with an empty
vocabulary. -/
def tx5 : Tx :=
  { date := ⟨17, 12, 2025⟩, amount := ⟨-50000, 2⟩, currency := "KZT",
    operation := "Покупка", description := "", direction := "expense",
    transfer_type := none, source := none }

/-- Fixture head groups for the C5 witness (glyph-free raw token). -/
def g5p : HeadGroups := ⟨"17.12.2025", "1234,56", "KZT", "Перевод", none⟩

/-- Record emitted by the parser.py head decoder on `g5p` with an
empty vocabulary. -/
def tx5p : Tx :=
  { date := ⟨17, 12, 2025⟩, amount := ⟨123456, 2⟩, currency := "KZT",
    operation := "Покупка", description := "", direction := "expense",
    transfer_type := none, source := none }

/-- C5 witness: the freedom decoder forces `-500,00` to the negated
absolute value, and the parser.py decoder leaves the glyph-free
`1234,56` at its (absolute) normalized value. -/
theorem c5_sign_forcing_witness :
    tx5.amount = (if startsNeg "-500,00" then Dec.negAbs ⟨-50000, 2⟩
      else Dec.dabs ⟨-50000, 2⟩) ∧
    tx5p.amount = (if startsNeg "1234,56" then Dec.negAbs ⟨123456, 2⟩
      else Dec.dabs ⟨123456, 2⟩) :=
  ⟨c5_sign_forcing.1 [] g5 tx5 ⟨-50000, 2⟩ rfl rfl,
   c5_sign_forcing.2 [] g5p tx5p ⟨123456, 2⟩ (by decide) rfl rfl⟩

/-- The direction/sign invariant of a record. -/
def DirOK (tx : Tx) : Prop := tx.direction = directionOf tx.amount

/-- The freedom head decoder only emits records whose direction is
the sign of their amount. -/
theorem dirOK_parse_head_line_groups (vocab : List String) (g : HeadGroups)
    (tx : Tx) (h : parse_head_line_groups vocab g = .ok tx) : DirOK tx := by
  simp only [parse_head_line_groups] at h
  cases hdt : strptimeDMY4 g.date <;> rw [hdt] at h
  · simp at h
  · cases hdec : to_decimal g.amount <;> rw [hdec] at h
    · simp at h
    · simp only [Except.ok.injEq] at h
      subst h
      rfl

/-- Lifting of the invariant through the optional head decode. -/
theorem dirOK_parse_head_line (vocab : List String) (line : String) (tx : Tx)
    (h : parse_head_line vocab line = .ok (some tx)) : DirOK tx := by
  simp only [parse_head_line] at h
  split at h
  next heq => simp at h
  next g heq =>
    cases hg : parse_head_line_groups vocab g <;> rw [hg] at h
    · simp [Except.map] at h
    · simp only [Except.map, Except.ok.injEq, Option.some.injEq] at h
      subst h
      exact dirOK_parse_head_line_groups vocab _ _ hg

/-- Flushing preserves the invariant: cleaning only rewrites the
description. -/
theorem dirOK_flushTx (markers : List String) (noise : List (String → String))
    (cur : Option Tx) (acc : List Tx)
    (hacc : ∀ tx ∈ acc, DirOK tx) (hcur : ∀ c, cur = some c → DirOK c) :
    ∀ tx ∈ flushTx markers noise cur acc, DirOK tx := by
  intro tx htx
  cases cur with
  | none => exact hacc tx htx
  | some c =>
    simp only [flushTx, List.mem_append, List.mem_singleton] at htx
    rcases htx with htx | htx
    · exact hacc tx htx
    · subst htx
      exact hcur c rfl

/-- Every record a freedom page emits satisfies the invariant,
whatever invariant-respecting state the page machine starts from. -/
theorem dirOK_parse_page_go (vocab markers : List String)
    (noise : List (String → String)) (lines : List String) :
    ∀ (cur : Option Tx) (acc txs : List Tx),
    (∀ tx ∈ acc, DirOK tx) → (∀ c, cur = some c → DirOK c) →
    parse_page_freedom_go vocab markers noise lines cur acc = .ok txs →
    ∀ tx ∈ txs, DirOK tx := by
  induction lines with
  | nil =>
    intro cur acc txs hacc hcur h
    simp only [parse_page_freedom_go, Except.ok.injEq] at h
    subst h
    exact dirOK_flushTx markers noise cur acc hacc hcur
  | cons line rest ih =>
    intro cur acc txs hacc hcur h
    simp only [parse_page_freedom_go] at h
    by_cases hds : isDateStart line = true
    · rw [if_pos hds] at h
      cases hph : parse_head_line vocab line <;> rw [hph] at h
      · simp at h
      · refine ih _ _ _ (dirOK_flushTx markers noise cur acc hacc hcur) ?_ h
        intro c hc
        rw [hc] at hph
        exact dirOK_parse_head_line vocab line c hph
    · rw [if_neg hds] at h
      cases cur with
      | some c =>
        refine ih _ _ _ hacc ?_ h
        intro c' hc'
        cases hc'
        have := hcur c rfl
        simpa [DirOK] using this
      | none =>
        refine ih _ _ _ hacc ?_ h
        intro c' hc'
        cases hc'

/-- Every record in the concatenated freedom page results satisfies
the invariant. -/
theorem dirOK_freedomPages (vocab markers : List String)
    (noise : List (String → String)) (pages : List (List String)) :
    ∀ txs, freedomPages vocab markers noise pages = .ok txs →
    ∀ tx ∈ txs, DirOK tx := by
  induction pages with
  | nil =>
    intro txs h
    simp only [freedomPages, Except.ok.injEq] at h
    subst h
    intro tx htx
    simp at htx
  | cons p ps ih =>
    intro txs h
    simp only [freedomPages] at h
    cases hp : parse_page_freedom vocab markers noise p <;> rw [hp] at h
    · simp at h
    · cases hps : freedomPages vocab markers noise ps <;> rw [hps] at h
      · simp at h
      · simp only [Except.ok.injEq] at h
        subst h
        intro tx htx
        rcases List.mem_append.1 htx with htx | htx
        · exact dirOK_parse_page_go vocab markers noise p none [] _
            (by simp) (by simp) hp tx htx
        · exact ih _ hps tx htx

/-- The kaspi row decoder only emits records whose direction is the
sign of their amount. -/
theorem dirOK_decodeRow (markers : List String) (noise : List (String → String))
    (iD iA iO : Nat) (iDet : Option Nat) (row : List String) (tx : Tx)
    (h : decodeRow markers noise iD iA iO iDet row = .ok (some tx)) : DirOK tx := by
  simp only [decodeRow] at h
  split at h
  next e heq => simp at h
  next dcell heqD =>
    split at h
    next heqDate => simp at h
    next date heqDate =>
      split at h
      next e heq => simp at h
      next acell heqA =>
        split at h
        next e heq => simp at h
        next amount heqAm =>
          split at h
          next e heq => simp at h
          next oc heqO =>
            split at h
            next e heq => simp at h
            next desc heqDesc =>
              simp only [Except.ok.injEq, Option.some.injEq] at h
              subst h
              rfl

/-- The kaspi row step only emits invariant-respecting records. -/
theorem dirOK_kstep (markers : List String) (noise : List (String → String))
    (s : KIdx) (r : List (Option String)) (tx : Tx)
    (h : (kstep markers noise s r).2 = some tx) : DirOK tx := by
  simp only [kstep] at h
  split at h
  · simp at h
  · split at h
    next iD iA iO heq1 heq2 heq3 =>
      split at h
      · split at h
        · simp at h
        next r' heq =>
          simp only at h
          subst h
          exact dirOK_decodeRow markers noise iD iA iO s.details _ _
            (by rw [heq])
      · simp at h
    · simp at h

/-- The kaspi row loop only collects invariant-respecting records. -/
theorem dirOK_processRows (markers : List String)
    (noise : List (String → String)) (table : List (List (Option String))) :
    ∀ (s : KIdx) (tx : Tx), tx ∈ (processRows markers noise s table).2 → DirOK tx := by
  induction table with
  | nil => intro s tx htx; simp [processRows] at htx
  | cons r rest ih =>
    intro s tx htx
    simp only [processRows] at htx
    cases hsnd : (kstep markers noise s r).2 <;> rw [hsnd] at htx
    · exact ih _ tx htx
    · rcases List.mem_cons.1 htx with htx | htx
      · subst htx
        exact dirOK_kstep markers noise s r _ hsnd
      · exact ih _ tx htx

/-- The kaspi page loop only collects invariant-respecting records. -/
theorem dirOK_kaspiDocFrom (markers : List String)
    (noise : List (String → String))
    (pages : List (Option (List (List (Option String))))) :
    ∀ (s : KIdx) (tx : Tx), tx ∈ kaspiDocFrom markers noise s pages → DirOK tx := by
  induction pages with
  | nil => intro s tx htx; simp [kaspiDocFrom] at htx
  | cons p ps ih =>
    intro s tx htx
    cases p with
    | none => exact ih _ tx htx
    | some table =>
      simp only [kaspiDocFrom] at htx
      by_cases he : table.isEmpty = true
      · rw [if_pos he] at htx
        exact ih _ tx htx
      · rw [if_neg he] at htx
        rcases List.mem_append.1 htx with htx | htx
        · exact dirOK_processRows markers noise table _ tx htx
        · exact ih _ tx htx

/-- Fixture head groups exhibiting the parser.py direction bug: a
positive amount token. -/
def g2 : HeadGroups := ⟨"18.12.2025", "+1000,00", "KZT", "Доход", some "Зарплата"⟩

/-- Record emitted by parser.py's `_parse_head` on `g2`. -/
def tx2 : Tx :=
  { date := ⟨18, 12, 2025⟩, amount := ⟨100000, 2⟩, currency := "KZT",
    operation := "Покупка", description := "Зарплата", direction := "expense",
    transfer_type := none, source := none }

/-- C2: every record emitted by the freedom (format A) and kaspi
(format B) per-document entry points carries `direction` equal to the
sign function of its final amount; but parser.py's `_parse_head` sets
`direction` independently of the sign — on the positive amount token
`+1000,00` it emits amount `1000.00` with direction `"expense"`. -/
theorem c2_direction_is_sign_of_amount :
    (∀ (vocab markers : List String) (noise : List (String → String))
        (pages : List (List String)) (txs : List Tx),
      parse_freedom_pdf vocab markers noise pages = .ok txs →
      ∀ tx ∈ txs, tx.direction = directionOf tx.amount) ∧
    (∀ (markers : List String) (noise : List (String → String))
        (pages : List (Option (List (List (Option String))))),
      ∀ tx ∈ parse_kaspi_pdf markers noise pages,
        tx.direction = directionOf tx.amount) ∧
    (parse_head_groups [] g2 = .ok tx2 ∧ 0 < tx2.amount.num ∧
      tx2.direction = "expense" ∧ tx2.direction ≠ directionOf tx2.amount) := by
  refine ⟨?_, ?_, rfl, by decide, rfl, by decide⟩
  · intro vocab markers noise pages txs h tx htx
    simp only [parse_freedom_pdf] at h
    cases hfp : freedomPages vocab markers noise pages <;> rw [hfp] at h
    · simp [Except.map] at h
    · simp only [Except.map, Except.ok.injEq] at h
      subst h
      simp only [List.mem_map] at htx
      obtain ⟨tx0, htx0, rfl⟩ := htx
      have := dirOK_freedomPages vocab markers noise pages _ hfp tx0 htx0
      simpa [DirOK, directionOf] using this
  · intro markers noise pages tx htx
    exact dirOK_kaspiDocFrom markers noise pages _ tx htx

/-- Record produced by the freedom entry point on the C2 witness
document. -/
def tx2w : Tx :=
  { date := ⟨17, 12, 2025⟩, amount := ⟨-50000, 2⟩, currency := "KZT",
    operation := "Покупка", description := "Оплата", direction := "expense",
    transfer_type := none, source := some "freedom" }

/-- Record produced by the kaspi entry point on the C2 witness
document. -/
def tx2k : Tx :=
  { date := ⟨1, 2, 2024⟩, amount := ⟨-5, 0⟩, currency := "KZT",
    operation := "X", description := "", direction := "expense",
    transfer_type := none, source := some "kaspi" }

/-- C2 witness: the invariant applied to one concrete record of each
live extractor. -/
theorem c2_direction_is_sign_of_amount_witness :
    tx2w.direction = directionOf tx2w.amount ∧
    tx2k.direction = directionOf tx2k.amount := by
  constructor
  · refine c2_direction_is_sign_of_amount.1 [] [] []
      [["17.12.2025 -500,00 KZT Перевод Оплата"]] [tx2w] rfl tx2w ?_
    exact List.mem_singleton.2 rfl
  · refine c2_direction_is_sign_of_amount.2.1 [] []
      [some [[some "Дата", some "Сумма", some "Операция"],
        [some "01.02.24", some "-5", some "x"]]] tx2k ?_
    have h : parse_kaspi_pdf [] []
        [some [[some "Дата", some "Сумма", some "Операция"],
          [some "01.02.24", some "-5", some "x"]]] = [tx2k] := rfl
    rw [h]
    exact List.mem_singleton.2 rfl

/-- Normal form reached by whitespace collapsing: every whitespace
character is a plain space and no space is followed by whitespace. -/
def wsGood : List Char → Bool
  | [] => true
  | [c] => !c.isWhitespace || c == ' '
  | c :: d :: t => (!c.isWhitespace || (c == ' ' && !d.isWhitespace)) && wsGood (d :: t)

theorem wsGood_tail (c : Char) (t : List Char) (h : wsGood (c :: t) = true) :
    wsGood t = true := by
  cases t with
  | nil => rfl
  | cons d t' =>
    simp only [wsGood, Bool.and_eq_true] at h
    exact h.2

theorem wsGood_head (a : Char) (l : List Char) (h : wsGood (a :: l) = true) :
    (!a.isWhitespace || (a == ' ')) = true := by
  cases l with
  | nil => simpa [wsGood] using h
  | cons d t =>
    simp only [wsGood, Bool.and_eq_true] at h
    cases ha : a.isWhitespace
    · simp [ha]
    · have := h.1
      rw [ha] at this
      simp only [Bool.not_true, Bool.false_or, Bool.and_eq_true] at this
      simp [this.1]

theorem wsCollapseAux_cons_ws_false (c : Char) (t : List Char)
    (hc : c.isWhitespace = true) :
    wsCollapseAux false (c :: t) = ' ' :: wsCollapseAux true t := by
  simp [wsCollapseAux, hc]

theorem wsCollapseAux_cons_ws_true (c : Char) (t : List Char)
    (hc : c.isWhitespace = true) :
    wsCollapseAux true (c :: t) = wsCollapseAux true t := by
  simp [wsCollapseAux, hc]

theorem wsCollapseAux_cons_not_ws (b : Bool) (c : Char) (t : List Char)
    (hc : c.isWhitespace = false) :
    wsCollapseAux b (c :: t) = c :: wsCollapseAux false t := by
  simp [wsCollapseAux, hc]

/-- The output of whitespace collapsing is in normal form, and in the
inside-a-run mode it never starts with whitespace. -/
theorem wsAux_good (l : List Char) :
    wsGood (wsCollapseAux false l) = true ∧ wsGood (wsCollapseAux true l) = true ∧
      (∀ c t, wsCollapseAux true l = c :: t → c.isWhitespace = false) := by
  induction l with
  | nil => exact ⟨rfl, rfl, by intro c t h; cases h⟩
  | cons a l ih =>
    cases ha : a.isWhitespace
    · rw [wsCollapseAux_cons_not_ws false a l ha, wsCollapseAux_cons_not_ws true a l ha]
      have hgood : wsGood (a :: wsCollapseAux false l) = true := by
        cases haux : wsCollapseAux false l with
        | nil => simp [wsGood, ha]
        | cons c t =>
          have h1 := ih.1
          rw [haux] at h1
          simp [wsGood, ha, h1]
      refine ⟨hgood, hgood, ?_⟩
      intro c t h
      cases h
      exact ha
    · rw [wsCollapseAux_cons_ws_false a l ha, wsCollapseAux_cons_ws_true a l ha]
      have hgood : wsGood (' ' :: wsCollapseAux true l) = true := by
        cases haux : wsCollapseAux true l with
        | nil => decide
        | cons c t =>
          have h2 := ih.2.1
          rw [haux] at h2
          have hc := ih.2.2 c t haux
          simp [wsGood, hc, h2]
      exact ⟨hgood, ih.2.1, ih.2.2⟩

/-- Whitespace collapsing is the identity on normal forms (and so on
its own output). -/
theorem wsGood_collapse_id (l : List Char) (h : wsGood l = true) :
    wsCollapseAux false l = l ∧
      (∀ c t, l = c :: t → c.isWhitespace = false → wsCollapseAux true l = l) := by
  induction l with
  | nil => exact ⟨rfl, by intro c t hh; cases hh⟩
  | cons a l ih =>
    have hl := wsGood_tail a l h
    have ihl := ih hl
    constructor
    · cases ha : a.isWhitespace
      · rw [wsCollapseAux_cons_not_ws false a l ha, ihl.1]
      · have hsp : a = ' ' := by
          have := wsGood_head a l h
          rw [ha] at this
          simpa using this
        rw [wsCollapseAux_cons_ws_false a l ha]
        cases l with
        | nil => simp [wsCollapseAux, hsp]
        | cons d t =>
          have hd : d.isWhitespace = false := by
            simp only [wsGood, ha, Bool.not_true, Bool.false_or,
              Bool.and_eq_true, beq_iff_eq, Bool.not_eq_true'] at h
            exact h.1.2
          rw [ihl.2 d t rfl hd, hsp]
    · intro c t hh hc
      cases hh
      rw [wsCollapseAux_cons_not_ws true a l hc, ihl.1]

/-- Normal forms are closed under removal of a leading-whitespace
prefix. -/
theorem wsGood_dropWhile (l : List Char) (h : wsGood l = true) :
    wsGood (l.dropWhile Char.isWhitespace) = true := by
  induction l with
  | nil => exact h
  | cons a l ih =>
    cases ha : a.isWhitespace
    · rw [List.dropWhile_cons_of_neg (by simp [ha])]
      exact h
    · rw [List.dropWhile_cons_of_pos (by simp [ha])]
      exact ih (wsGood_tail a l h)

/-- A nonempty right-strip keeps the head of its input. -/
theorem pyRStrip_head (l : List Char) (c : Char) (t : List Char)
    (h : pyRStrip l = c :: t) : ∃ t', l = c :: t' := by
  cases l with
  | nil => cases h
  | cons a l' =>
    simp only [pyRStrip] at h
    split at h
    · split at h
      · cases h
      · exact ⟨l', by cases h; rfl⟩
    next r heq =>
      exact ⟨l', by cases h; rfl⟩

/-- Unfolding of `pyRStrip` on a cons whose tail strips to empty. -/
theorem pyRStrip_cons_nil (a : Char) (l : List Char) (h : pyRStrip l = []) :
    pyRStrip (a :: l) = if a.isWhitespace then [] else [a] := by
  unfold pyRStrip
  rw [h]

/-- Unfolding of `pyRStrip` on a cons whose tail strips nonempty. -/
theorem pyRStrip_cons_cons (a : Char) (l : List Char) (c : Char) (t : List Char)
    (h : pyRStrip l = c :: t) : pyRStrip (a :: l) = a :: c :: t := by
  unfold pyRStrip
  rw [h]

/-- Normal forms are closed under right-stripping. -/
theorem wsGood_pyRStrip (l : List Char) (h : wsGood l = true) :
    wsGood (pyRStrip l) = true := by
  induction l with
  | nil => exact h
  | cons a l ih =>
    have hl := wsGood_tail a l h
    cases hr : pyRStrip l with
    | nil =>
      rw [pyRStrip_cons_nil a l hr]
      cases ha : a.isWhitespace
      · rw [if_neg (by simp [ha])]
        simpa [wsGood] using wsGood_head a l h
      · rfl
    | cons c t =>
      rw [pyRStrip_cons_cons a l c t hr]
      obtain ⟨t', ht'⟩ := pyRStrip_head l c t hr
      have hrg : wsGood (c :: t) = true := by
        have := ih hl
        rw [hr] at this
        exact this
      simp only [wsGood, Bool.and_eq_true]
      refine ⟨?_, hrg⟩
      cases ha : a.isWhitespace
      · simp
      · subst ht'
        simp only [wsGood, ha, Bool.not_true, Bool.false_or, Bool.and_eq_true] at h
        simp [ha, h.1]

/-- The head surviving `dropWhile isWhitespace` is not whitespace. -/
theorem dropWhile_head_not_ws (l : List Char) (c : Char) (t : List Char)
    (h : l.dropWhile Char.isWhitespace = c :: t) : c.isWhitespace = false := by
  induction l with
  | nil => cases h
  | cons a l ih =>
    cases ha : a.isWhitespace
    · rw [List.dropWhile_cons_of_neg (by simp [ha])] at h
      cases h
      exact ha
    · rw [List.dropWhile_cons_of_pos (by simp [ha])] at h
      exact ih h

/-- Right-stripping is idempotent. -/
theorem pyRStrip_idem (l : List Char) : pyRStrip (pyRStrip l) = pyRStrip l := by
  induction l with
  | nil => rfl
  | cons a l ih =>
    cases hr : pyRStrip l with
    | nil =>
      rw [pyRStrip_cons_nil a l hr]
      cases ha : a.isWhitespace
      · rw [if_neg (by simp [ha]), pyRStrip_cons_nil a [] rfl, if_neg (by simp [ha])]
      · rfl
    | cons c t =>
      rw [pyRStrip_cons_cons a l c t hr]
      have hin : pyRStrip (c :: t) = c :: t := by
        rw [← hr, ih, hr]
      exact pyRStrip_cons_cons a (c :: t) c t hin

/-- Full stripping is idempotent. -/
theorem pyStrip_idem (l : List Char) : pyStrip (pyStrip l) = pyStrip l := by
  simp only [pyStrip]
  have hd : (pyRStrip (l.dropWhile Char.isWhitespace)).dropWhile Char.isWhitespace =
      pyRStrip (l.dropWhile Char.isWhitespace) := by
    cases hr : pyRStrip (l.dropWhile Char.isWhitespace) with
    | nil => rfl
    | cons c t =>
      obtain ⟨t', ht'⟩ := pyRStrip_head _ c t hr
      have hc : c.isWhitespace = false := dropWhile_head_not_ws l c t' ht'
      rw [List.dropWhile_cons_of_neg (by simp [hc])]
  rw [hd, pyRStrip_idem]

/-- Collapsing then stripping reaches a fixed point in one pass. -/
theorem collapseStrip_idem (u : List Char) :
    pyStrip (wsCollapse (pyStrip (wsCollapse u))) = pyStrip (wsCollapse u) := by
  have hm : wsGood (wsCollapse u) = true := (wsAux_good u).1
  have hs : wsGood (pyStrip (wsCollapse u)) = true :=
    wsGood_pyRStrip _ (wsGood_dropWhile _ hm)
  have hcol : wsCollapse (pyStrip (wsCollapse u)) = pyStrip (wsCollapse u) :=
    (wsGood_collapse_id _ hs).1
  rw [show wsCollapse (pyStrip (wsCollapse u)) = wsCollapseAux false (pyStrip (wsCollapse u)) from rfl] at hcol
  rw [show wsCollapse (pyStrip (wsCollapse u)) = wsCollapseAux false (pyStrip (wsCollapse u)) from rfl]
  rw [hcol, pyStrip_idem]

theorem toList_mk (l : List Char) : (String.mk l).toList = l := rfl

/-- C6 counterexample: with the footer marker `"a b"` (a marker
containing a space) and no noise patterns, cleaning `"a  b"` yields
`"a b"`, whose re-cleaning strips the newly formed marker occurrence
down to `""` — `clean_description` is not idempotent for every
configuration. -/
theorem c6_cleaning_not_idempotent :
    clean_description ["a b"] [] (clean_description ["a b"] [] "a  b") ≠
      clean_description ["a b"] [] "a  b" := by
  decide

/-- C6 (amended): re-cleaning a cleaned description is a no-op
whenever the cleaned text is a fixed point of footer stripping and of
noise removal (in particular whitespace normalization alone is always
idempotent); a configuration whose marker or pattern matches cleaned
output — e.g. a marker containing a space — breaks idempotence, as
the counterexample shows. -/
theorem c6_cleaning_idempotent_on_stable_output :
    ∀ (markers : List String) (noise : List (String → String)) (s : String),
    strip_footer markers (clean_description markers noise s) =
      clean_description markers noise s →
    noiseFold noise (clean_description markers noise s) =
      clean_description markers noise s →
    clean_description markers noise (clean_description markers noise s) =
      clean_description markers noise s := by
  intro markers noise s h1 h2
  show String.mk (pyStrip (wsCollapse (noiseFold noise
      (strip_footer markers (clean_description markers noise s))).toList)) =
    clean_description markers noise s
  rw [h1, h2]
  show String.mk (pyStrip (wsCollapse (pyStrip (wsCollapse
      ((noiseFold noise (strip_footer markers s)).toList))))) =
    String.mk (pyStrip (wsCollapse
      ((noiseFold noise (strip_footer markers s)).toList)))
  exact congrArg String.mk (collapseStrip_idem _)

/-- C6 witness: with no markers and no noise patterns the hypotheses
hold definitionally, and cleaning `"  a  b "` twice equals cleaning
it once. -/
theorem c6_cleaning_idempotent_witness :
    clean_description [] [] (clean_description [] [] "  a  b ") =
      clean_description [] [] "  a  b " :=
  c6_cleaning_idempotent_on_stable_output [] [] "  a  b " rfl rfl

end AnalyticParser
